import Mathlib

/-!
# Verification of the Magnum SceneTools hierarchy-flattening functions

The repository snapshot contains only the public header
`src/Magnum/SceneTools/Hierarchy.h`, which declares
`absoluteFieldTransformations2D`, `absoluteFieldTransformations3D` and their
`Into` / named-field variants and documents their contract; the translation
unit implementing them is not part of the snapshot.  Following the
specification, the algorithm (precondition checks, the Parent-Order Resolver
`orderClusterParents`, and the absolute-transformation propagation pass) is
modelled here from the specification text and the header's documentation.

Transforms are modelled generically by a monoid `M` (composition is matrix
multiplication, which is associative, unital and non-commutative); the 2D and
3D instantiations differ only in the transform type, which the single generic
model covers, with the scene carrying its dimensionality as a number checked
against the call shape.
-/

set_option maxHeartbeats 1000000

namespace MagnumSceneTools

/-- One entry of the scene's parent relation: an object identifier paired with
its parent identifier, or `none` when the object is declared a root. -/
abbrev ParentEntry := Nat × Option Nat

/-- Modelled from the spec: a named field of a scene — a field name (the
`Trade::SceneField` enumeration value, represented as a number) together with
the list of object identifiers its entries are attached to.  Only the object
identifiers matter to the flattening algorithm; payloads pass through
untouched. -/
structure SField where
  name : Nat
  entries : List Nat
deriving DecidableEq

/-- Modelled from the spec: the scene-data container boundary
(`Trade::SceneData`, external collaborator).  `mappingBound` is the exclusive
upper bound on object identifiers, `dimensions` is 2 or 3, `fields` is the
indexed field list, `parent` is the Parent field's (object, parent) pairs when
the scene has a Parent field (`none` otherwise), and `localTransform` gives
each object's local transformation. -/
structure Scene (M : Type) where
  mappingBound : Nat
  dimensions : Nat
  fields : List SField
  parent : Option (List ParentEntry)
  localTransform : Nat → M

/-- The scene's parent relation, empty when the Parent field is absent. -/
def Scene.parentRel {M : Type} (s : Scene M) : List ParentEntry :=
  s.parent.getD []

/-- The object identifiers of the entries of field `fieldId`
(`Trade::SceneData::fieldSize` is the length of this list). -/
def fieldEntries {M : Type} (s : Scene M) (fieldId : Nat) : List Nat :=
  match s.fields.get? fieldId with
  | some f => f.entries
  | none => []

/-- Look up an object's parent entry in the relation: `none` when the object
has no entry at all, `some none` for a declared root, `some (some p)` for a
child of `p`. -/
def lookupParent (rel : List ParentEntry) (o : Nat) : Option (Option Nat) :=
  match rel.find? (fun e => e.1 == o) with
  | some e => some e.2
  | none => none

/-- Whether the parent relation assigns two parents to one object (two entries
with the same key). -/
def hasDuplicateKey : List ParentEntry → Bool
  | [] => false
  | e :: rest => rest.any (fun f => f.1 == e.1) || hasDuplicateKey rest

/-- Result of walking an object's ancestor chain: connected to a declared root
at the given depth, loose (the chain leaves the relation without reaching a
declared root), or cyclic (the chain never leaves the relation within the
available fuel). -/
inductive ChainResult where
  | root (depth : Nat)
  | loose
  | cyc
deriving DecidableEq

/-- Walk the ancestor chain of `o` for at most `fuel` steps. -/
def traceChain (rel : List ParentEntry) : Nat → Nat → ChainResult
  | 0, _ => ChainResult.cyc
  | fuel + 1, o =>
    match lookupParent rel o with
    | none => ChainResult.loose
    | some none => ChainResult.root 0
    | some (some p) =>
      match traceChain rel fuel p with
      | ChainResult.root d => ChainResult.root (d + 1)
      | r => r

/-- Enough fuel to traverse any acyclic chain of the relation: one more than
the number of entries. -/
def chainFuel (rel : List ParentEntry) : Nat := rel.length + 1

/-- Whether some object's ancestor chain stays inside the relation forever,
i.e. the relation has a cycle (with duplicate-free keys, a chain longer than
the relation must repeat a key). -/
def hasCycle (rel : List ParentEntry) : Bool :=
  rel.any (fun e => traceChain rel (chainFuel rel) e.1 == ChainResult.cyc)

/-- The parent-relation entries whose object sits at depth `d` below a
declared root. -/
def entriesAtDepth (rel : List ParentEntry) (d : Nat) : List ParentEntry :=
  rel.filter (fun e => traceChain rel (chainFuel rel) e.1 == ChainResult.root d)

/-- All root-connected parent-relation entries ordered by depth, so that every
parent appears before all of its children. -/
def orderByDepth (rel : List ParentEntry) : List ParentEntry :=
  ((List.range (chainFuel rel)).map (entriesAtDepth rel)).flatten

/-- Modelled from the spec: the Parent-Order Resolver (`orderClusterParents`
in the source, whose implementation is not in the snapshot).  Given the full
parent relation it returns the root-connected entries in an order where every
parent precedes its children, and signals failure when the relation contains a
cycle or a duplicate parent assignment. -/
def orderClusterParents (rel : List ParentEntry) : Option (List ParentEntry) :=
  if hasDuplicateKey rel || hasCycle rel then none
  else some (orderByDepth rel)

/-- Modelled from the spec: one step of the propagation pass.  The entry's
absolute transform is `globalTransform * localTransform(object)` for a
declared root and `absolute(parent) * localTransform(object)` otherwise, the
parent's absolute transform having been computed earlier in the pass (the
identity stands in for the table's unknown marker, which a valid ordering
never reads). -/
def propagateStep {M : Type} [Monoid M] (g : M) (L : Nat → M)
    (table : Nat → Option M) (e : ParentEntry) : Nat → Option M :=
  fun o =>
    if o = e.1 then
      some (match e.2 with
        | none => g * L e.1
        | some q => (table q).getD 1 * L e.1)
    else table o

/-- Modelled from the spec: the single pass over the resolver's ordering,
building the absolute-transform table (`none` is the unknown marker for
objects that received no value). -/
def propagate {M : Type} [Monoid M] (g : M) (L : Nat → M)
    (ordering : List ParentEntry) : Nat → Option M :=
  ordering.foldl (propagateStep g L) (fun _ => none)

/-- The specification's description of the result: the global transformation
composed (leftmost) with the local transforms along the root-to-object path in
order, `global * L(root) * ... * L(parent) * L(object)`. -/
def specAbsoluteTransform {M : Type} [Monoid M] (rel : List ParentEntry)
    (L : Nat → M) (g : M) : Nat → Nat → M
  | 0, o => g * L o
  | fuel + 1, o =>
    match lookupParent rel o with
    | some (some p) => specAbsoluteTransform rel L g fuel p * L o
    | _ => g * L o

/-- Modelled from the spec: the eagerly checked preconditions of a call —
valid field index, dimensionality matching the call shape, Parent field
present, and a well-formed parent relation (no duplicate parent assignment,
no cycle). -/
def validCall {M : Type} (s : Scene M) (fieldId dim : Nat) : Bool :=
  decide (fieldId < s.fields.length) && (s.dimensions == dim)
    && s.parent.isSome && !hasDuplicateKey s.parentRel && !hasCycle s.parentRel

/-- Modelled from the spec: the allocating call shape, parameterised by the
resolver so that non-invocation of the resolver on an empty field is
observable.  `none` models the precondition-violation abort; otherwise the
result has one absolute transform per field entry, in field order, with
entries of objects that received no table value set to the unspecified
marker value. -/
def absoluteFieldTransformationsWith {M : Type} [Monoid M]
    (resolver : List ParentEntry → Option (List ParentEntry))
    (dim : Nat) (s : Scene M) (fieldId : Nat) (g : M) : Option (List M) :=
  if validCall s fieldId dim then
    if (fieldEntries s fieldId).isEmpty then some []
    else
      match resolver s.parentRel with
      | some ordering =>
        some ((fieldEntries s fieldId).map
          (fun o => (propagate g s.localTransform ordering o).getD 1))
      | none => none
  else none

/-- Modelled from the spec: `absoluteFieldTransformations` (the allocating
call shape), dimension-generic; the 2D and 3D functions are its `dim = 2` and
`dim = 3` instances. -/
def absoluteFieldTransformations {M : Type} [Monoid M]
    (dim : Nat) (s : Scene M) (fieldId : Nat) (g : M) : Option (List M) :=
  absoluteFieldTransformationsWith orderClusterParents dim s fieldId g

/-- Overwrite the region of `mem` starting at `start` with `vals`. -/
def writeRegion {M : Type} (mem : List M) (start : Nat) (vals : List M) :
    List M :=
  mem.take start ++ vals ++ mem.drop (start + vals.length)

/-- Modelled from the spec: the in-place call shape, parameterised by the
resolver.  The caller's memory is modelled as a list with the output buffer
being the region `[start, start + len)`; the buffer length must equal the
field's entry count.  `none` models the precondition-violation abort;
otherwise the result is the caller's memory with the computed transforms
written into the buffer region. -/
def absoluteFieldTransformationsIntoWith {M : Type} [Monoid M]
    (resolver : List ParentEntry → Option (List ParentEntry))
    (dim : Nat) (s : Scene M) (fieldId : Nat) (mem : List M)
    (start len : Nat) (g : M) : Option (List M) :=
  if validCall s fieldId dim && (len == (fieldEntries s fieldId).length)
      && decide (start + len ≤ mem.length) then
    if (fieldEntries s fieldId).isEmpty then some mem
    else
      match resolver s.parentRel with
      | some ordering =>
        some (writeRegion mem start ((fieldEntries s fieldId).map
          (fun o => (propagate g s.localTransform ordering o).getD 1)))
      | none => none
  else none

/-- Modelled from the spec: `absoluteFieldTransformationsInto` (the in-place
call shape), dimension-generic. -/
def absoluteFieldTransformationsInto {M : Type} [Monoid M]
    (dim : Nat) (s : Scene M) (fieldId : Nat) (mem : List M)
    (start len : Nat) (g : M) : Option (List M) :=
  absoluteFieldTransformationsIntoWith orderClusterParents dim s fieldId mem
    start len g

/-- Modelled from the spec: `Trade::SceneData::fieldId`, resolving a field
name to its index; fails when no field has the name. -/
def fieldIdFor {M : Type} (s : Scene M) (name : Nat) : Option Nat :=
  s.fields.findIdx? (fun f => f.name == name)

/-- Modelled from the spec: the named-field allocating call shape — resolves
the name via `fieldIdFor` and delegates to the index-based shape; the field is
expected to exist. -/
def absoluteFieldTransformationsNamed {M : Type} [Monoid M]
    (dim : Nat) (s : Scene M) (name : Nat) (g : M) : Option (List M) :=
  match fieldIdFor s name with
  | some fieldId => absoluteFieldTransformations dim s fieldId g
  | none => none

/-- Modelled from the spec: the named-field in-place call shape. -/
def absoluteFieldTransformationsNamedInto {M : Type} [Monoid M]
    (dim : Nat) (s : Scene M) (name : Nat) (mem : List M)
    (start len : Nat) (g : M) : Option (List M) :=
  match fieldIdFor s name with
  | some fieldId =>
    absoluteFieldTransformationsInto dim s fieldId mem start len g
  | none => none

/-- Modelled from the spec: the overload without a `globalTransformation`
argument, which behaves as the full overload called with the identity. -/
def absoluteFieldTransformationsDefaultGlobal {M : Type} [Monoid M]
    (dim : Nat) (s : Scene M) (fieldId : Nat) : Option (List M) :=
  absoluteFieldTransformations dim s fieldId 1

/-- `absoluteFieldTransformations2D`: the 2D instance of the allocating call
shape. -/
def absoluteFieldTransformations2D {M : Type} [Monoid M]
    (s : Scene M) (fieldId : Nat) (g : M) : Option (List M) :=
  absoluteFieldTransformations 2 s fieldId g

/-- `absoluteFieldTransformations3D`: the 3D instance of the allocating call
shape. -/
def absoluteFieldTransformations3D {M : Type} [Monoid M]
    (s : Scene M) (fieldId : Nat) (g : M) : Option (List M) :=
  absoluteFieldTransformations 3 s fieldId g

/-- `absoluteFieldTransformations2DInto`: the 2D instance of the in-place
call shape. -/
def absoluteFieldTransformations2DInto {M : Type} [Monoid M]
    (s : Scene M) (fieldId : Nat) (mem : List M) (start len : Nat) (g : M) :
    Option (List M) :=
  absoluteFieldTransformationsInto 2 s fieldId mem start len g
/-! ## A concrete non-commutative transform monoid for witnesses

2×2 natural-number matrices under matrix multiplication: a computable,
decidable stand-in for the affine transform types, with the same algebraic
structure the claims exercise (associative, unital, non-commutative
composition). -/

structure M2 where
  a : Nat
  b : Nat
  c : Nat
  d : Nat
deriving DecidableEq

def M2.mul (x y : M2) : M2 :=
  ⟨x.a * y.a + x.b * y.c, x.a * y.b + x.b * y.d,
   x.c * y.a + x.d * y.c, x.c * y.b + x.d * y.d⟩

instance : Monoid M2 where
  mul := M2.mul
  one := ⟨1, 0, 0, 1⟩
  mul_assoc x y z := by
    cases x
    cases y
    cases z
    show M2.mul (M2.mul _ _) _ = M2.mul _ (M2.mul _ _)
    simp only [M2.mul, M2.mk.injEq]
    refine ⟨by ring, by ring, by ring, by ring⟩
  one_mul x := by
    cases x
    show M2.mul ⟨1, 0, 0, 1⟩ _ = _
    simp [M2.mul]
  mul_one x := by
    cases x
    show M2.mul _ ⟨1, 0, 0, 1⟩ = _
    simp [M2.mul]

def genA : M2 := ⟨1, 1, 0, 1⟩

def genB : M2 := ⟨1, 0, 1, 1⟩

def genC : M2 := ⟨2, 1, 1, 1⟩

def genG : M2 := ⟨1, 2, 0, 1⟩

/-- A 2D test scene: objects 3 (root), 5 (child of 3), 9 (child of 5), 4
(child of the absent object 77, i.e. a loose subtree); field 7 with entries
attached to objects 5, 3, 9 and 5 again, and an empty field 8. -/
def testScene : Scene M2 where
  mappingBound := 10
  dimensions := 2
  fields := [⟨7, [5, 3, 9, 5]⟩, ⟨8, []⟩]
  parent := some [(3, none), (5, some 3), (9, some 5), (4, some 77)]
  localTransform := fun o =>
    if o = 3 then genA else if o = 5 then genB else if o = 9 then genC else 1

/-- The output of `absoluteFieldTransformations 2 testScene 0 genG`:
`genG*genA*genB`, `genG*genA`, `genG*genA*genB*genC`, `genG*genA*genB`. -/
def testOut : List M2 :=
  [⟨4, 3, 1, 1⟩, ⟨1, 3, 0, 1⟩, ⟨11, 7, 3, 2⟩, ⟨4, 3, 1, 1⟩]

/-- `testScene` with the target field referencing loose object 4 and the
completely absent object 42. -/
def looseScene : Scene M2 :=
  { testScene with fields := [⟨7, [4, 42, 3]⟩] }

/-- A single-level scene: root 0 with identity local transform, children 5
and 9 carrying their own local transforms, field entries on 5, 9, 5. -/
def flatScene : Scene M2 where
  mappingBound := 10
  dimensions := 2
  fields := [⟨7, [5, 9, 5]⟩]
  parent := some [(0, none), (5, some 0), (9, some 0)]
  localTransform := fun o => if o = 5 then genB else if o = 9 then genC else 1

/-! ## Lemmas about the parent relation and chain tracing -/

theorem lookupParent_of_mem {rel : List ParentEntry}
    (hnd : hasDuplicateKey rel = false) {e : ParentEntry} (he : e ∈ rel) :
    lookupParent rel e.1 = some e.2 := by
  induction rel with
  | nil => cases he
  | cons a tl ih =>
    rw [hasDuplicateKey, Bool.or_eq_false_iff] at hnd
    obtain ⟨hna, hntl⟩ := hnd
    rcases List.mem_cons.mp he with rfl | hetl
    · simp [lookupParent, List.find?]
    · have hne : (a.1 == e.1) = false := by
        rcases hb : (a.1 == e.1) with _ | _
        · rfl
        · exfalso
          have hmem := List.any_eq_false.mp hna e hetl
          simp only [beq_iff_eq] at hb hmem
          exact hmem hb.symm
      rw [lookupParent, List.find?_cons_of_neg _ (by simp [hne])]
      exact ih hntl hetl

theorem lookupParent_isSome_mem {rel : List ParentEntry} {o : Nat}
    {po : Option Nat} (h : lookupParent rel o = some po) :
    (o, po) ∈ rel ∨ ∃ e ∈ rel, e.1 = o := by
  rw [lookupParent] at h
  cases hf : rel.find? (fun e => e.1 == o) with
  | none => rw [hf] at h; cases h
  | some e =>
    rw [hf] at h
    have hm := List.mem_of_find?_eq_some hf
    have hp := List.find?_some hf
    simp only [beq_iff_eq] at hp
    exact Or.inr ⟨e, hm, hp⟩

theorem traceChain_eq_loose (rel : List ParentEntry) (f o : Nat)
    (hl : lookupParent rel o = none) :
    traceChain rel (f + 1) o = ChainResult.loose := by
  rw [traceChain, hl]

theorem traceChain_eq_root_zero (rel : List ParentEntry) (f o : Nat)
    (hl : lookupParent rel o = some none) :
    traceChain rel (f + 1) o = ChainResult.root 0 := by
  rw [traceChain, hl]

theorem traceChain_eq_child (rel : List ParentEntry) (f o p : Nat)
    (hl : lookupParent rel o = some (some p)) :
    traceChain rel (f + 1) o =
      (match traceChain rel f p with
        | ChainResult.root d => ChainResult.root (d + 1)
        | r => r) := by
  rw [traceChain, hl]

theorem traceChain_succ {rel : List ParentEntry} {f o : Nat} {r : ChainResult}
    (h : traceChain rel f o = r) (hr : r ≠ ChainResult.cyc) :
    traceChain rel (f + 1) o = r := by
  induction f generalizing o r with
  | zero => rw [traceChain] at h; exact absurd h.symm hr
  | succ f ih =>
    cases hl : lookupParent rel o with
    | none => rw [traceChain_eq_loose rel f o hl] at h; rw [traceChain_eq_loose rel (f + 1) o hl]; exact h
    | some po =>
      cases po with
      | none =>
        rw [traceChain_eq_root_zero rel f o hl] at h
        rw [traceChain_eq_root_zero rel (f + 1) o hl]
        exact h
      | some p =>
        rw [traceChain_eq_child rel f o p hl] at h
        rw [traceChain_eq_child rel (f + 1) o p hl]
        cases hp : traceChain rel f p with
        | root d => rw [ih hp (by simp)]; rw [hp] at h; exact h
        | loose => rw [ih hp (by simp)]; rw [hp] at h; exact h
        | cyc => rw [hp] at h; exact absurd h.symm hr

theorem traceChain_mono {rel : List ParentEntry} {f fbig o : Nat}
    {r : ChainResult} (hle : f ≤ fbig) (h : traceChain rel f o = r)
    (hr : r ≠ ChainResult.cyc) : traceChain rel fbig o = r := by
  induction hle with
  | refl => exact h
  | step _ ih => exact traceChain_succ ih hr

theorem traceChain_root_lt {rel : List ParentEntry} {f o d : Nat}
    (h : traceChain rel f o = ChainResult.root d) : d < f := by
  induction f generalizing o d with
  | zero => rw [traceChain] at h; cases h
  | succ f ih =>
    cases hl : lookupParent rel o with
    | none => rw [traceChain_eq_loose rel f o hl] at h; cases h
    | some po =>
      cases po with
      | none => rw [traceChain_eq_root_zero rel f o hl] at h; cases h; omega
      | some p =>
        rw [traceChain_eq_child rel f o p hl] at h
        cases hp : traceChain rel f p with
        | root d0 =>
          rw [hp] at h
          cases h
          have := ih hp
          omega
        | loose => rw [hp] at h; cases h
        | cyc => rw [hp] at h; cases h

theorem traceChain_root_zero_inv {rel : List ParentEntry} {f o : Nat}
    (h : traceChain rel (f + 1) o = ChainResult.root 0) :
    lookupParent rel o = some none := by
  cases hl : lookupParent rel o with
  | none => rw [traceChain_eq_loose rel f o hl] at h; cases h
  | some po =>
    cases po with
    | none => rfl
    | some p =>
      rw [traceChain_eq_child rel f o p hl] at h
      cases hp : traceChain rel f p with
      | root d0 => rw [hp] at h; cases h
      | loose => rw [hp] at h; cases h
      | cyc => rw [hp] at h; cases h

theorem traceChain_root_succ_inv {rel : List ParentEntry} {f o d : Nat}
    (h : traceChain rel (f + 1) o = ChainResult.root (d + 1)) :
    ∃ p, lookupParent rel o = some (some p) ∧
      traceChain rel f p = ChainResult.root d := by
  cases hl : lookupParent rel o with
  | none => rw [traceChain_eq_loose rel f o hl] at h; cases h
  | some po =>
    cases po with
    | none => rw [traceChain_eq_root_zero rel f o hl] at h; cases h
    | some p =>
      rw [traceChain_eq_child rel f o p hl] at h
      cases hp : traceChain rel f p with
      | root d0 =>
        rw [hp] at h
        cases h
        exact ⟨p, rfl, hp⟩
      | loose => rw [hp] at h; cases h
      | cyc => rw [hp] at h; cases h

theorem traceChain_min {rel : List ParentEntry} {f o d : Nat}
    (h : traceChain rel f o = ChainResult.root d) :
    traceChain rel (d + 1) o = ChainResult.root d := by
  induction f generalizing o d with
  | zero => rw [traceChain] at h; cases h
  | succ f ih =>
    cases d with
    | zero => exact traceChain_eq_root_zero rel 0 o (traceChain_root_zero_inv h)
    | succ d =>
      obtain ⟨p, hl, hp⟩ := traceChain_root_succ_inv h
      have hmin := ih hp
      rw [traceChain_eq_child rel (d + 1) o p hl, hmin]

theorem traceChain_root_of_parent_root {rel : List ParentEntry} {f o p d : Nat}
    (hl : lookupParent rel o = some (some p))
    (hp : traceChain rel f p = ChainResult.root d) :
    traceChain rel (f + 1) o = ChainResult.root (d + 1) := by
  rw [traceChain_eq_child rel f o p hl, hp]

theorem chainFuel_eq (rel : List ParentEntry) :
    chainFuel rel = rel.length + 1 := rfl

/-! ## Lemmas about the specification-side path composition -/

theorem specAbsoluteTransform_missing {M : Type} [Monoid M]
    (rel : List ParentEntry) (L : Nat → M) (g : M) (f o : Nat)
    (hl : lookupParent rel o = none) :
    specAbsoluteTransform rel L g (f + 1) o = g * L o := by
  rw [specAbsoluteTransform, hl]

theorem specAbsoluteTransform_root {M : Type} [Monoid M]
    (rel : List ParentEntry) (L : Nat → M) (g : M) (f o : Nat)
    (hl : lookupParent rel o = some none) :
    specAbsoluteTransform rel L g (f + 1) o = g * L o := by
  rw [specAbsoluteTransform, hl]

theorem specAbsoluteTransform_child {M : Type} [Monoid M]
    (rel : List ParentEntry) (L : Nat → M) (g : M) (f o p : Nat)
    (hl : lookupParent rel o = some (some p)) :
    specAbsoluteTransform rel L g (f + 1) o =
      specAbsoluteTransform rel L g f p * L o := by
  rw [specAbsoluteTransform, hl]

theorem specAbsoluteTransform_fuel {M : Type} [Monoid M]
    {rel : List ParentEntry} (L : Nat → M) (g : M) :
    ∀ (d o f1 f2 : Nat), traceChain rel (d + 1) o = ChainResult.root d →
      d < f1 → d < f2 →
      specAbsoluteTransform rel L g f1 o = specAbsoluteTransform rel L g f2 o := by
  intro d
  induction d with
  | zero =>
    intro o f1 f2 h h1 h2
    have hl := traceChain_root_zero_inv h
    obtain ⟨f1p, rfl⟩ : ∃ j, f1 = j + 1 := ⟨f1 - 1, by omega⟩
    obtain ⟨f2p, rfl⟩ : ∃ j, f2 = j + 1 := ⟨f2 - 1, by omega⟩
    rw [specAbsoluteTransform_root rel L g f1p o hl,
      specAbsoluteTransform_root rel L g f2p o hl]
  | succ d ih =>
    intro o f1 f2 h h1 h2
    obtain ⟨p, hl, hp⟩ := traceChain_root_succ_inv h
    obtain ⟨f1p, rfl⟩ : ∃ j, f1 = j + 1 := ⟨f1 - 1, by omega⟩
    obtain ⟨f2p, rfl⟩ : ∃ j, f2 = j + 1 := ⟨f2 - 1, by omega⟩
    rw [specAbsoluteTransform_child rel L g f1p o p hl,
      specAbsoluteTransform_child rel L g f2p o p hl,
      ih p f1p f2p hp (by omega) (by omega)]

/-! ## Which objects are connected to a root at depth below a bound -/

/-- Whether the object's ancestor chain reaches a declared root at a depth
strictly below `k`. -/
def rootedBelow (rel : List ParentEntry) (k o : Nat) : Bool :=
  match traceChain rel (chainFuel rel) o with
  | ChainResult.root d => decide (d < k)
  | _ => false

theorem rootedBelow_of_root {rel : List ParentEntry} {k o d : Nat}
    (h : traceChain rel (chainFuel rel) o = ChainResult.root d) (hd : d < k) :
    rootedBelow rel k o = true := by
  unfold rootedBelow
  rw [h]
  simpa using hd

theorem rootedBelow_cases {rel : List ParentEntry} {k o : Nat}
    (h : rootedBelow rel k o = true) :
    ∃ d, traceChain rel (chainFuel rel) o = ChainResult.root d ∧ d < k := by
  unfold rootedBelow at h
  cases ht : traceChain rel (chainFuel rel) o with
  | root d => rw [ht] at h; exact ⟨d, rfl, by simpa using h⟩
  | loose => rw [ht] at h; cases h
  | cyc => rw [ht] at h; cases h

theorem rootedBelow_self_false {rel : List ParentEntry} {k o : Nat}
    (h : traceChain rel (chainFuel rel) o = ChainResult.root k) :
    rootedBelow rel k o = false := by
  unfold rootedBelow
  rw [h]
  simp

theorem rootedBelow_zero (rel : List ParentEntry) (o : Nat) :
    rootedBelow rel 0 o = false := by
  unfold rootedBelow
  cases ht : traceChain rel (chainFuel rel) o <;> simp

theorem rootedBelow_succ_of_ne {rel : List ParentEntry} {k o : Nat}
    (h : traceChain rel (chainFuel rel) o ≠ ChainResult.root k) :
    rootedBelow rel (k + 1) o = rootedBelow rel k o := by
  unfold rootedBelow
  cases ht : traceChain rel (chainFuel rel) o with
  | root d =>
    have hdk : d ≠ k := by
      intro e
      exact h (e ▸ ht)
    exact decide_eq_decide.mpr (by omega)
  | loose => rfl
  | cyc => rfl

theorem rootedBelow_of_loose {rel : List ParentEntry} {o : Nat} (k : Nat)
    (h : traceChain rel (chainFuel rel) o = ChainResult.loose) :
    rootedBelow rel k o = false := by
  unfold rootedBelow
  rw [h]

theorem rootedBelow_of_cyc {rel : List ParentEntry} {o : Nat} (k : Nat)
    (h : traceChain rel (chainFuel rel) o = ChainResult.cyc) :
    rootedBelow rel k o = false := by
  unfold rootedBelow
  rw [h]

/-! ## Correctness of the propagation pass over the depth ordering -/

theorem foldGroup {M : Type} [Monoid M] {rel : List ParentEntry}
    (hnd : hasDuplicateKey rel = false) (g : M) (L : Nat → M) (k : Nat) :
    ∀ (l : List ParentEntry) (T : Nat → Option M),
      (∀ e ∈ l, e ∈ rel) →
      (∀ e ∈ l, traceChain rel (chainFuel rel) e.1 = ChainResult.root k) →
      (∀ o, rootedBelow rel k o = true →
        T o = some (specAbsoluteTransform rel L g (chainFuel rel) o)) →
      ∀ o, l.foldl (propagateStep g L) T o =
        if o ∈ l.map Prod.fst
        then some (specAbsoluteTransform rel L g (chainFuel rel) o)
        else T o := by
  intro l
  induction l with
  | nil => intro T _ _ _ o; simp
  | cons e tl ih =>
    intro T hmem hdep hT o
    rw [List.foldl_cons]
    have he_rel : e ∈ rel := hmem e (by simp)
    have he_dep : traceChain rel (chainFuel rel) e.1 = ChainResult.root k :=
      hdep e (by simp)
    have hkey : lookupParent rel e.1 = some e.2 := lookupParent_of_mem hnd he_rel
    have hval : propagateStep g L T e e.1 =
        some (specAbsoluteTransform rel L g (chainFuel rel) e.1) := by
      unfold propagateStep
      rw [if_pos rfl]
      cases hpe : e.2 with
      | none =>
        rw [hpe] at hkey
        rw [chainFuel_eq, specAbsoluteTransform_root rel L g rel.length e.1 hkey]
      | some q =>
        rw [hpe] at hkey
        have hdep2 : traceChain rel (rel.length + 1) e.1 = ChainResult.root k :=
          he_dep
        cases k with
        | zero =>
          have := traceChain_root_zero_inv hdep2
          rw [hkey] at this
          cases this
        | succ k0 =>
          obtain ⟨p, hlp, hp⟩ := traceChain_root_succ_inv hdep2
          rw [hkey] at hlp
          injection hlp with hlp2
          injection hlp2 with hlp3
          subst hlp3
          show some ((T q).getD 1 * L e.1) =
            some (specAbsoluteTransform rel L g (chainFuel rel) e.1)
          have hk0 : k0 < rel.length := traceChain_root_lt hp
          have hqb : rootedBelow rel (k0 + 1) q = true :=
            rootedBelow_of_root
              (traceChain_mono (Nat.le_succ rel.length) hp (by simp))
              (Nat.lt_succ_self k0)
          rw [hT q hqb]
          rw [chainFuel_eq,
            specAbsoluteTransform_child rel L g rel.length e.1 q hkey]
          have hfuel := specAbsoluteTransform_fuel L g k0 q (rel.length + 1)
            rel.length (traceChain_min hp) (by omega) (by omega)
          rw [Option.getD_some, hfuel]
    have hT2 : ∀ o2, rootedBelow rel k o2 = true →
        (propagateStep g L T e) o2 =
          some (specAbsoluteTransform rel L g (chainFuel rel) o2) := by
      intro o2 ho2
      unfold propagateStep
      have hne : o2 ≠ e.1 := by
        intro heq
        subst heq
        rw [rootedBelow_self_false he_dep] at ho2
        cases ho2
      rw [if_neg hne]
      exact hT o2 ho2
    rw [ih (propagateStep g L T e)
      (fun f hf => hmem f (List.mem_cons_of_mem e hf))
      (fun f hf => hdep f (List.mem_cons_of_mem e hf)) hT2 o]
    by_cases h1 : o ∈ tl.map Prod.fst
    · rw [if_pos h1, if_pos (by simp [h1])]
    · rw [if_neg h1]
      by_cases h2 : o = e.1
      · subst h2
        rw [hval, if_pos (by simp)]
      · have hstep : propagateStep g L T e o = T o := by
          unfold propagateStep
          rw [if_neg h2]
        rw [hstep, if_neg (by simp [h1, h2])]

/-- The root-connected entries of depth strictly below `k`, in depth order. -/
def orderingUpTo (rel : List ParentEntry) (k : Nat) : List ParentEntry :=
  ((List.range k).map (entriesAtDepth rel)).flatten

theorem orderingUpTo_succ (rel : List ParentEntry) (k : Nat) :
    orderingUpTo rel (k + 1) = orderingUpTo rel k ++ entriesAtDepth rel k := by
  unfold orderingUpTo
  rw [List.range_succ, List.map_append, List.flatten_append]
  simp

theorem mem_entriesAtDepth_keys {rel : List ParentEntry} {k o : Nat} :
    o ∈ (entriesAtDepth rel k).map Prod.fst ↔
      traceChain rel (chainFuel rel) o = ChainResult.root k := by
  constructor
  · intro h
    obtain ⟨e, he, rfl⟩ := List.mem_map.mp h
    have := (List.mem_filter.mp he).2
    simpa using this
  · intro h
    have hl : ∃ po, lookupParent rel o = some po := by
      cases k with
      | zero => exact ⟨none, traceChain_root_zero_inv h⟩
      | succ k0 =>
        obtain ⟨p, hlp, _⟩ := traceChain_root_succ_inv h
        exact ⟨some p, hlp⟩
    obtain ⟨po, hl⟩ := hl
    rw [lookupParent] at hl
    cases hf : rel.find? (fun e => e.1 == o) with
    | none => rw [hf] at hl; cases hl
    | some e =>
      have hm := List.mem_of_find?_eq_some hf
      have hp := List.find?_some hf
      simp only [beq_iff_eq] at hp
      refine List.mem_map.mpr ⟨e, List.mem_filter.mpr ⟨hm, ?_⟩, hp⟩
      simp [hp, h]

theorem propagate_upTo {M : Type} [Monoid M] {rel : List ParentEntry}
    (hnd : hasDuplicateKey rel = false) (g : M) (L : Nat → M) :
    ∀ (k o : Nat),
      propagate g L (orderingUpTo rel k) o =
        if rootedBelow rel k o = true
        then some (specAbsoluteTransform rel L g (chainFuel rel) o)
        else none := by
  intro k
  induction k with
  | zero =>
    intro o
    rw [if_neg (by rw [rootedBelow_zero]; simp)]
    simp [orderingUpTo, propagate]
  | succ k ih =>
    intro o
    have key : propagate g L (orderingUpTo rel (k + 1)) o =
        if o ∈ (entriesAtDepth rel k).map Prod.fst
        then some (specAbsoluteTransform rel L g (chainFuel rel) o)
        else propagate g L (orderingUpTo rel k) o := by
      rw [propagate, orderingUpTo_succ, List.foldl_append]
      exact foldGroup hnd g L k (entriesAtDepth rel k)
        (propagate g L (orderingUpTo rel k))
        (fun e he => (List.mem_filter.mp he).1)
        (fun e he => by have := (List.mem_filter.mp he).2; simpa using this)
        (fun o2 ho2 => by rw [ih o2, if_pos ho2]) o
    rw [key]
    by_cases hk : traceChain rel (chainFuel rel) o = ChainResult.root k
    · rw [if_pos (mem_entriesAtDepth_keys.mpr hk),
        if_pos (rootedBelow_of_root hk (Nat.lt_succ_self k))]
    · rw [if_neg (fun hm => hk (mem_entriesAtDepth_keys.mp hm)), ih o,
        rootedBelow_succ_of_ne hk]

theorem propagate_orderByDepth {M : Type} [Monoid M] {rel : List ParentEntry}
    (hnd : hasDuplicateKey rel = false) (g : M) (L : Nat → M) (o : Nat) :
    propagate g L (orderByDepth rel) o =
      match traceChain rel (chainFuel rel) o with
      | ChainResult.root _ =>
        some (specAbsoluteTransform rel L g (chainFuel rel) o)
      | _ => none := by
  have horder : orderByDepth rel = orderingUpTo rel (chainFuel rel) := rfl
  rw [horder, propagate_upTo hnd g L (chainFuel rel) o]
  cases ht : traceChain rel (chainFuel rel) o with
  | root d =>
    rw [if_pos (rootedBelow_of_root ht (traceChain_root_lt ht))]
  | loose =>
    rw [if_neg (by rw [rootedBelow_of_loose (chainFuel rel) ht]; simp)]
  | cyc =>
    rw [if_neg (by rw [rootedBelow_of_cyc (chainFuel rel) ht]; simp)]

/-! ## Top-level call shape lemmas -/

theorem validCall_parts {M : Type} {s : Scene M} {fieldId dim : Nat}
    (hv : validCall s fieldId dim = true) :
    fieldId < s.fields.length ∧ s.dimensions = dim ∧ s.parent.isSome = true ∧
      hasDuplicateKey s.parentRel = false ∧ hasCycle s.parentRel = false := by
  unfold validCall at hv
  simp only [Bool.and_eq_true, decide_eq_true_eq, beq_iff_eq,
    Bool.not_eq_true'] at hv
  tauto

theorem orderClusterParents_of_wellFormed {rel : List ParentEntry}
    (hnd : hasDuplicateKey rel = false) (hnc : hasCycle rel = false) :
    orderClusterParents rel = some (orderByDepth rel) := by
  rw [orderClusterParents, if_neg (by rw [hnd, hnc]; simp)]

theorem absoluteFieldTransformations_eq_of_valid {M : Type} [Monoid M]
    {s : Scene M} {fieldId dim : Nat} (g : M)
    (hv : validCall s fieldId dim = true) :
    absoluteFieldTransformations dim s fieldId g =
      some ((fieldEntries s fieldId).map
        (fun o =>
          (propagate g s.localTransform (orderByDepth s.parentRel) o).getD 1)) := by
  obtain ⟨-, -, -, hnd, hnc⟩ := validCall_parts hv
  rw [absoluteFieldTransformations, absoluteFieldTransformationsWith, if_pos hv]
  by_cases he : (fieldEntries s fieldId).isEmpty = true
  · rw [if_pos he]
    rw [List.isEmpty_iff.mp he]
    rfl
  · rw [if_neg he, orderClusterParents_of_wellFormed hnd hnc]

theorem absoluteFieldTransformations_none_of_invalid {M : Type} [Monoid M]
    {s : Scene M} {fieldId dim : Nat} (g : M)
    (hv : validCall s fieldId dim = false) :
    absoluteFieldTransformations dim s fieldId g = none := by
  rw [absoluteFieldTransformations, absoluteFieldTransformationsWith,
    if_neg (by rw [hv]; simp)]

theorem absoluteFieldTransformationsInto_eq_of_valid {M : Type} [Monoid M]
    {s : Scene M} {fieldId dim : Nat} (g : M) {mem : List M} {start len : Nat}
    (hv : validCall s fieldId dim = true)
    (hlen : len = (fieldEntries s fieldId).length)
    (hb : start + len ≤ mem.length) :
    absoluteFieldTransformationsInto dim s fieldId mem start len g =
      some (writeRegion mem start ((fieldEntries s fieldId).map
        (fun o =>
          (propagate g s.localTransform (orderByDepth s.parentRel) o).getD 1))) := by
  obtain ⟨-, -, -, hnd, hnc⟩ := validCall_parts hv
  subst hlen
  rw [absoluteFieldTransformationsInto, absoluteFieldTransformationsIntoWith,
    if_pos (by rw [hv]; simp [hb])]
  by_cases he : (fieldEntries s fieldId).isEmpty = true
  · rw [if_pos he]
    rw [List.isEmpty_iff.mp he]
    show some mem = some (writeRegion mem start [])
    rw [writeRegion]
    simp only [List.length_nil, Nat.add_zero, List.append_nil]
    rw [List.take_append_drop]
  · rw [if_neg he, orderClusterParents_of_wellFormed hnd hnc]

/-! ## Frame lemmas for the in-place write -/

theorem writeRegion_length {M : Type} (mem : List M) (start : Nat)
    (vals : List M) (hb : start + vals.length ≤ mem.length) :
    (writeRegion mem start vals).length = mem.length := by
  unfold writeRegion
  simp only [List.length_append, List.length_take, List.length_drop]
  omega

theorem writeRegion_getElem_outside {M : Type} (mem : List M) (start : Nat)
    (vals : List M) (i : Nat) (hb : start + vals.length ≤ mem.length)
    (hi : i < start ∨ start + vals.length ≤ i) :
    (writeRegion mem start vals)[i]? = mem[i]? := by
  unfold writeRegion
  have hts : (mem.take start).length = start := by
    simp only [List.length_take]
    omega
  have h2 : (mem.take start ++ vals).length = start + vals.length := by
    simp [hts]
  rcases hi with hi | hi
  · rw [List.getElem?_append, if_pos (by rw [h2]; omega),
      List.getElem?_append, if_pos (by rw [hts]; omega),
      List.getElem?_take, if_pos hi]
  · rw [List.getElem?_append, if_neg (by rw [h2]; omega), h2,
      List.getElem?_drop]
    congr 1
    omega

theorem writeRegion_getElem_inside {M : Type} (mem : List M) (start : Nat)
    (vals : List M) (j : Nat) (hb : start + vals.length ≤ mem.length)
    (hj : j < vals.length) :
    (writeRegion mem start vals)[start + j]? = vals[j]? := by
  unfold writeRegion
  have hts : (mem.take start).length = start := by
    simp only [List.length_take]
    omega
  have h2 : (mem.take start ++ vals).length = start + vals.length := by
    simp [hts]
  rw [List.getElem?_append, if_pos (by rw [h2]; omega),
    List.getElem?_append, if_neg (by rw [hts]; omega), hts]
  congr 1
  omega

theorem writeRegion_extract {M : Type} (mem : List M) (start : Nat)
    (vals : List M) (hb : start + vals.length ≤ mem.length) :
    ((writeRegion mem start vals).drop start).take vals.length = vals := by
  apply List.ext_getElem?
  intro j
  rw [List.getElem?_take]
  by_cases hj : j < vals.length
  · rw [if_pos hj, List.getElem?_drop,
      writeRegion_getElem_inside mem start vals j hb hj]
  · rw [if_neg hj, eq_comm]
    exact List.getElem?_eq_none (by omega)

/-! ## Claim theorems -/

/-- C1: For every scene satisfying the preconditions and every entry of the
target field whose object is connected through the parent relation to a root,
the output transform for that entry equals the global transformation composed
(leftmost) with the local transforms along the root-to-object path in order,
`global * L(root) * ... * L(parent) * L(object)` (the recursion
`specAbsoluteTransform`); in particular a root object's entry yields
`globalTransformation * L(root)`. -/
theorem C1_rooted_entry_is_path_composition {M : Type} [Monoid M]
    {s : Scene M} {dim fieldId : Nat} (g : M) {out : List M}
    (hv : validCall s fieldId dim = true)
    (hres : absoluteFieldTransformations dim s fieldId g = some out)
    {i obj : Nat} (hobj : (fieldEntries s fieldId)[i]? = some obj)
    {d : Nat}
    (hroot : traceChain s.parentRel (chainFuel s.parentRel) obj =
      ChainResult.root d) :
    out[i]? = some (specAbsoluteTransform s.parentRel s.localTransform g
      (chainFuel s.parentRel) obj) ∧
    (lookupParent s.parentRel obj = some none →
      out[i]? = some (g * s.localTransform obj)) := by
  obtain ⟨-, -, -, hnd, -⟩ := validCall_parts hv
  rw [absoluteFieldTransformations_eq_of_valid g hv] at hres
  injection hres with hres
  subst hres
  have htab : propagate g s.localTransform (orderByDepth s.parentRel) obj =
      some (specAbsoluteTransform s.parentRel s.localTransform g
        (chainFuel s.parentRel) obj) := by
    rw [propagate_orderByDepth hnd g s.localTransform obj, hroot]
  constructor
  · rw [List.getElem?_map, hobj]
    show some ((propagate g s.localTransform (orderByDepth s.parentRel)
      obj).getD 1) = _
    rw [htab, Option.getD_some]
  · intro hrootlk
    rw [List.getElem?_map, hobj]
    show some ((propagate g s.localTransform (orderByDepth s.parentRel)
      obj).getD 1) = _
    rw [htab, Option.getD_some, chainFuel_eq,
      specAbsoluteTransform_root _ _ _ _ _ hrootlk]

/-- C2: Whenever a call of either shape succeeds, the output sequence has
exactly as many elements as the field has entries, and the i-th output is the
table value of the i-th field entry's object, for all i — regardless of
object identifier values or hierarchy shape.  For the allocating shape the
output list is that sequence; for the in-place shape the buffer length is
forced to equal the field's entry count and the i-th value sits at buffer
position `start + i`. -/
theorem C2_output_matches_field_order {M : Type} [Monoid M]
    (s : Scene M) (dim fieldId : Nat) (g : M) :
    (∀ out : List M, absoluteFieldTransformations dim s fieldId g = some out →
      out.length = (fieldEntries s fieldId).length ∧
      ∀ i : Nat, out[i]? = ((fieldEntries s fieldId)[i]?).map
        (fun o =>
          (propagate g s.localTransform (orderByDepth s.parentRel) o).getD 1)) ∧
    (∀ (mem mem2 : List M) (start len : Nat),
      absoluteFieldTransformationsInto dim s fieldId mem start len g =
        some mem2 →
      len = (fieldEntries s fieldId).length ∧
      ∀ i : Nat, i < len →
        mem2[start + i]? = ((fieldEntries s fieldId)[i]?).map
          (fun o =>
            (propagate g s.localTransform (orderByDepth s.parentRel) o).getD 1)) := by
  constructor
  · intro out hres
    rcases hvc : validCall s fieldId dim with _ | _
    · rw [absoluteFieldTransformations_none_of_invalid g hvc] at hres
      cases hres
    · rw [absoluteFieldTransformations_eq_of_valid g hvc] at hres
      injection hres with hres
      subst hres
      refine ⟨by simp, fun i => ?_⟩
      rw [List.getElem?_map]
  · intro mem mem2 start len hres
    by_cases hc : (validCall s fieldId dim
        && (len == (fieldEntries s fieldId).length)
        && decide (start + len ≤ mem.length)) = true
    · simp only [Bool.and_eq_true, beq_iff_eq, decide_eq_true_eq] at hc
      obtain ⟨⟨hv, hlen⟩, hb⟩ := hc
      rw [absoluteFieldTransformationsInto_eq_of_valid g hv hlen hb] at hres
      injection hres with hres
      subst hres
      refine ⟨hlen, fun i hi => ?_⟩
      have hvl : ((fieldEntries s fieldId).map
          (fun o =>
            (propagate g s.localTransform (orderByDepth s.parentRel) o).getD 1)).length
          = len := by simp [hlen]
      rw [writeRegion_getElem_inside mem start _ i (by rw [hvl]; exact hb)
        (by rw [hvl]; exact hi), List.getElem?_map]
    · rw [absoluteFieldTransformationsInto,
        absoluteFieldTransformationsIntoWith, if_neg hc] at hres
      cases hres

/-- C3: A call on a scene violating a precondition — invalid fieldId,
dimensionality mismatch, missing Parent field, malformed parent relation
(duplicate parent assignment or cycle), or, for the in-place shape, a wrong
output buffer length — aborts (returns `none`), producing no partial result;
in particular a cyclic parent relation makes the call fail rather than not
terminate (the model is a total function). -/
theorem C3_precondition_violation_aborts {M : Type} [Monoid M]
    (s : Scene M) (dim fieldId : Nat) (g : M) (mem : List M)
    (start len : Nat)
    (h : ¬ fieldId < s.fields.length ∨ s.dimensions ≠ dim ∨ s.parent = none ∨
      hasDuplicateKey s.parentRel = true ∨ hasCycle s.parentRel = true ∨
      len ≠ (fieldEntries s fieldId).length) :
    absoluteFieldTransformationsInto dim s fieldId mem start len g = none ∧
    (len = (fieldEntries s fieldId).length →
      absoluteFieldTransformations dim s fieldId g = none) := by
  have hvc : validCall s fieldId dim = false ∨
      len ≠ (fieldEntries s fieldId).length := by
    rcases h with h | h | h | h | h | h
    · exact Or.inl (by simp [validCall, h])
    · exact Or.inl (by simp [validCall, h])
    · exact Or.inl (by simp [validCall, h])
    · refine Or.inl ?_
      have h2 : hasDuplicateKey (s.parent.getD []) = true := h
      simp [validCall, Scene.parentRel, h2]
    · refine Or.inl ?_
      have h2 : hasCycle (s.parent.getD []) = true := h
      simp [validCall, Scene.parentRel, h2]
    · exact Or.inr h
  constructor
  · rw [absoluteFieldTransformationsInto, absoluteFieldTransformationsIntoWith]
    rcases hvc with hvc | hvc
    · rw [if_neg (by rw [hvc]; simp)]
    · rw [if_neg (by simp only [Bool.and_eq_true, beq_iff_eq]; tauto)]
  · intro hlen
    have hvf : validCall s fieldId dim = false := by tauto
    exact absoluteFieldTransformations_none_of_invalid g hvf

/-- C4: For identical valid inputs, the allocating variant and the in-place
variant (given a buffer region of the field's size) produce identical output
sequences: the buffer region after the in-place call holds exactly the
allocating call's result. -/
theorem C4_into_matches_allocating {M : Type} [Monoid M]
    {s : Scene M} {dim fieldId : Nat} (g : M) (mem : List M)
    (start len : Nat)
    (hv : validCall s fieldId dim = true)
    (hlen : len = (fieldEntries s fieldId).length)
    (hb : start + len ≤ mem.length) :
    ∃ out mem2,
      absoluteFieldTransformations dim s fieldId g = some out ∧
      absoluteFieldTransformationsInto dim s fieldId mem start len g =
        some mem2 ∧
      (mem2.drop start).take len = out := by
  refine ⟨_, _, absoluteFieldTransformations_eq_of_valid g hv,
    absoluteFieldTransformationsInto_eq_of_valid g hv hlen hb, ?_⟩
  have hvl : ((fieldEntries s fieldId).map
      (fun o =>
        (propagate g s.localTransform (orderByDepth s.parentRel) o).getD 1)).length
      = len := by simp [hlen]
  rw [← hvl] at hb ⊢
  exact writeRegion_extract mem start _ hb

/-- C5: For a valid scene, a field entry whose object has no entry in the
parent relation or lies in a loose (disconnected) subtree does not make the
call fail: the call still returns an output of the correct length (the value
emitted for such an entry being a don't-care). -/
theorem C5_loose_entry_is_not_an_error {M : Type} [Monoid M]
    {s : Scene M} {dim fieldId : Nat} (g : M) {i obj : Nat}
    (hv : validCall s fieldId dim = true)
    (hobj : (fieldEntries s fieldId)[i]? = some obj)
    (hloose : lookupParent s.parentRel obj = none ∨
      traceChain s.parentRel (chainFuel s.parentRel) obj = ChainResult.loose) :
    ∃ out, absoluteFieldTransformations dim s fieldId g = some out ∧
      out.length = (fieldEntries s fieldId).length := by
  exact ⟨_, absoluteFieldTransformations_eq_of_valid g hv, by simp⟩

/-- C6: For a valid scene whose target field has zero entries, the call
returns a zero-length output (and the in-place call leaves the memory
unchanged), whatever the resolver does — i.e. without invoking the
Parent-Order Resolver. -/
theorem C6_empty_field_skips_resolver {M : Type} [Monoid M]
    {s : Scene M} {dim fieldId : Nat} (g : M)
    (hv : validCall s fieldId dim = true)
    (he : fieldEntries s fieldId = []) :
    (∀ resolver,
      absoluteFieldTransformationsWith resolver dim s fieldId g = some []) ∧
    (∀ resolver (mem : List M) (start : Nat), start ≤ mem.length →
      absoluteFieldTransformationsIntoWith resolver dim s fieldId mem start 0 g
        = some mem) := by
  constructor
  · intro resolver
    rw [absoluteFieldTransformationsWith, if_pos hv, if_pos (by rw [he]; rfl)]
  · intro resolver mem start hstart
    rw [absoluteFieldTransformationsIntoWith,
      if_pos (by rw [hv, he]; simpa using hstart), if_pos (by rw [he]; rfl)]

/-- C7: The named-field call shapes resolve the field name to an index via
`fieldIdFor` and return exactly what the index-based shapes return on that
index (both for the allocating and the in-place variant). -/
theorem C7_named_field_delegates {M : Type} [Monoid M]
    {s : Scene M} (dim name fieldId : Nat) (g : M)
    (h : fieldIdFor s name = some fieldId) :
    absoluteFieldTransformationsNamed dim s name g =
      absoluteFieldTransformations dim s fieldId g ∧
    ∀ (mem : List M) (start len : Nat),
      absoluteFieldTransformationsNamedInto dim s name mem start len g =
        absoluteFieldTransformationsInto dim s fieldId mem start len g := by
  constructor
  · rw [absoluteFieldTransformationsNamed, h]
  · intro mem start len
    rw [absoluteFieldTransformationsNamedInto, h]

/-- C8: On a valid scene where every field-entry object is a direct child of a
single declared root whose local transform is the identity, the overload
without a global transformation (which equals calling with the identity)
yields for each entry exactly that entry's object's own local transform. -/
theorem C8_single_level_identity_global {M : Type} [Monoid M]
    {s : Scene M} {dim fieldId : Nat} {r : Nat}
    (hv : validCall s fieldId dim = true)
    (hr : lookupParent s.parentRel r = some none)
    (hrL : s.localTransform r = 1)
    (hch : ∀ o ∈ fieldEntries s fieldId,
      lookupParent s.parentRel o = some (some r)) :
    absoluteFieldTransformationsDefaultGlobal dim s fieldId =
      absoluteFieldTransformations dim s fieldId 1 ∧
    ∃ out, absoluteFieldTransformationsDefaultGlobal dim s fieldId = some out ∧
      ∀ i : Nat, out[i]? = ((fieldEntries s fieldId)[i]?).map
        s.localTransform := by
  obtain ⟨-, -, -, hnd, -⟩ := validCall_parts hv
  refine ⟨rfl, _, absoluteFieldTransformations_eq_of_valid 1 hv, fun i => ?_⟩
  rw [List.getElem?_map]
  cases hobj : (fieldEntries s fieldId)[i]? with
  | none => rfl
  | some obj =>
    have hmem : obj ∈ fieldEntries s fieldId := by
      have := List.getElem?_eq_some_iff.mp hobj
      obtain ⟨hlt, hget⟩ := this
      exact hget ▸ List.getElem_mem hlt
    have hco := hch obj hmem
    have hrelne : s.parentRel ≠ [] := by
      intro h0
      rw [h0] at hr
      cases hr
    obtain ⟨n, hn⟩ : ∃ n, s.parentRel.length = n + 1 := by
      cases hrel : s.parentRel with
      | nil => exact absurd hrel hrelne
      | cons a tl => exact ⟨tl.length, rfl⟩
    have hF : chainFuel s.parentRel = n + 1 + 1 := by rw [chainFuel_eq, hn]
    have hrroot : traceChain s.parentRel (n + 1) r = ChainResult.root 0 :=
      traceChain_eq_root_zero s.parentRel n r hr
    have hroot : traceChain s.parentRel (chainFuel s.parentRel) obj =
        ChainResult.root 1 := by
      rw [hF]
      exact traceChain_root_of_parent_root hco hrroot
    have htab : propagate 1 s.localTransform (orderByDepth s.parentRel) obj =
        some (specAbsoluteTransform s.parentRel s.localTransform 1
          (chainFuel s.parentRel) obj) := by
      rw [propagate_orderByDepth hnd 1 s.localTransform obj, hroot]
    show some ((propagate 1 s.localTransform (orderByDepth s.parentRel)
      obj).getD 1) = _
    rw [htab, Option.getD_some, hF,
      specAbsoluteTransform_child s.parentRel s.localTransform 1 (n + 1) obj r
        hco,
      specAbsoluteTransform_root s.parentRel s.localTransform 1 n r hr,
      hrL, mul_one, one_mul]
    rfl

/-- C10: A successful in-place call writes only within the bounds of the
caller-provided buffer region: the surrounding memory is byte-for-byte
unchanged and the total memory length is preserved (the input scene, being an
argument of a pure function, is left unchanged by construction). -/
theorem C10_into_preserves_outside_buffer {M : Type} [Monoid M]
    {s : Scene M} {dim fieldId : Nat} (g : M)
    {mem mem2 : List M} {start len : Nat}
    (hres : absoluteFieldTransformationsInto dim s fieldId mem start len g =
      some mem2) :
    mem2.length = mem.length ∧
    ∀ i : Nat, i < start ∨ start + len ≤ i → mem2[i]? = mem[i]? := by
  by_cases hc : (validCall s fieldId dim
      && (len == (fieldEntries s fieldId).length)
      && decide (start + len ≤ mem.length)) = true
  · simp only [Bool.and_eq_true, beq_iff_eq, decide_eq_true_eq] at hc
    obtain ⟨⟨hv, hlen⟩, hb⟩ := hc
    rw [absoluteFieldTransformationsInto_eq_of_valid g hv hlen hb] at hres
    injection hres with hres
    subst hres
    have hvl : ((fieldEntries s fieldId).map
        (fun o =>
          (propagate g s.localTransform (orderByDepth s.parentRel) o).getD 1)).length
        = len := by simp [hlen]
    constructor
    · rw [← hvl] at hb
      exact writeRegion_length mem start _ hb
    · intro i hi
      rw [← hvl] at hb hi
      exact writeRegion_getElem_outside mem start _ i hb hi
  · rw [absoluteFieldTransformationsInto,
      absoluteFieldTransformationsIntoWith, if_neg hc] at hres
    cases hres


/-! ## Witnesses -/

theorem C1_witness :
    validCall testScene 0 2 = true ∧
    (testOut[1]? = some (specAbsoluteTransform testScene.parentRel
        testScene.localTransform genG (chainFuel testScene.parentRel) 3) ∧
      (lookupParent testScene.parentRel 3 = some none →
        testOut[1]? = some (genG * testScene.localTransform 3))) := by
  have hv : validCall testScene 0 2 = true := by decide
  have hres : absoluteFieldTransformations 2 testScene 0 genG =
      some testOut := by decide
  have hobj : (fieldEntries testScene 0)[1]? = some 3 := by decide
  have hroot : traceChain testScene.parentRel (chainFuel testScene.parentRel)
      3 = ChainResult.root 0 := by decide
  exact ⟨hv, C1_rooted_entry_is_path_composition genG hv hres hobj hroot⟩

theorem C2_witness :
    absoluteFieldTransformations 2 testScene 0 genG = some testOut ∧
    (testOut.length = (fieldEntries testScene 0).length ∧
      ∀ i : Nat, testOut[i]? = ((fieldEntries testScene 0)[i]?).map
        (fun o => (propagate genG testScene.localTransform
          (orderByDepth testScene.parentRel) o).getD 1)) ∧
    ((4 : Nat) = (fieldEntries testScene 0).length ∧
      ∀ i : Nat, i < 4 →
        ([⟨9, 9, 9, 9⟩, ⟨4, 3, 1, 1⟩, ⟨1, 3, 0, 1⟩, ⟨11, 7, 3, 2⟩,
          ⟨4, 3, 1, 1⟩, ⟨9, 9, 9, 9⟩] : List M2)[1 + i]? =
        ((fieldEntries testScene 0)[i]?).map
          (fun o => (propagate genG testScene.localTransform
            (orderByDepth testScene.parentRel) o).getD 1)) := by
  have hres : absoluteFieldTransformations 2 testScene 0 genG =
      some testOut := by decide
  have hres2 : absoluteFieldTransformationsInto 2 testScene 0
      [⟨9, 9, 9, 9⟩, ⟨9, 9, 9, 9⟩, ⟨9, 9, 9, 9⟩, ⟨9, 9, 9, 9⟩,
        ⟨9, 9, 9, 9⟩, ⟨9, 9, 9, 9⟩] 1 4 genG =
      some [⟨9, 9, 9, 9⟩, ⟨4, 3, 1, 1⟩, ⟨1, 3, 0, 1⟩, ⟨11, 7, 3, 2⟩,
        ⟨4, 3, 1, 1⟩, ⟨9, 9, 9, 9⟩] := by decide
  exact ⟨hres,
    (C2_output_matches_field_order testScene 2 0 genG).1 testOut hres,
    (C2_output_matches_field_order testScene 2 0 genG).2 _ _ 1 4 hres2⟩

theorem C3_witness :
    ¬ (5 : Nat) < testScene.fields.length ∧
    (absoluteFieldTransformationsInto 2 testScene 5 ([] : List M2) 0 0 genG =
        none ∧
      ((0 : Nat) = (fieldEntries testScene 5).length →
        absoluteFieldTransformations 2 testScene 5 genG = none)) := by
  have h5 : ¬ (5 : Nat) < testScene.fields.length := by decide
  exact ⟨h5, C3_precondition_violation_aborts testScene 2 5 genG [] 0 0
    (Or.inl h5)⟩

theorem C4_witness :
    validCall testScene 0 2 = true ∧
    ∃ out mem2,
      absoluteFieldTransformations 2 testScene 0 genG = some out ∧
      absoluteFieldTransformationsInto 2 testScene 0
        [⟨9, 9, 9, 9⟩, ⟨9, 9, 9, 9⟩, ⟨9, 9, 9, 9⟩, ⟨9, 9, 9, 9⟩,
          ⟨9, 9, 9, 9⟩, ⟨9, 9, 9, 9⟩] 1 4 genG = some mem2 ∧
      (mem2.drop 1).take 4 = out := by
  have hv : validCall testScene 0 2 = true := by decide
  have hlen : (4 : Nat) = (fieldEntries testScene 0).length := by decide
  exact ⟨hv, C4_into_matches_allocating genG _ 1 4 hv hlen (by decide)⟩

theorem C5_witness :
    validCall looseScene 0 2 = true ∧
    traceChain looseScene.parentRel (chainFuel looseScene.parentRel) 4 =
      ChainResult.loose ∧
    ∃ out, absoluteFieldTransformations 2 looseScene 0 genG = some out ∧
      out.length = (fieldEntries looseScene 0).length := by
  have hv : validCall looseScene 0 2 = true := by decide
  have hobj : (fieldEntries looseScene 0)[0]? = some 4 := by decide
  have hloose : traceChain looseScene.parentRel
      (chainFuel looseScene.parentRel) 4 = ChainResult.loose := by decide
  exact ⟨hv, hloose,
    C5_loose_entry_is_not_an_error genG hv hobj (Or.inr hloose)⟩

theorem C6_witness :
    fieldEntries testScene 1 = [] ∧
    absoluteFieldTransformationsWith (fun _ => none) 2 testScene 1 genG =
      some [] ∧
    absoluteFieldTransformationsIntoWith (fun _ => none) 2 testScene 1
      [genA, genB] 1 0 genG = some [genA, genB] := by
  have hv : validCall testScene 1 2 = true := by decide
  have he : fieldEntries testScene 1 = [] := by decide
  exact ⟨he, (C6_empty_field_skips_resolver genG hv he).1 _,
    (C6_empty_field_skips_resolver genG hv he).2 _ [genA, genB] 1
      (by decide)⟩

theorem C7_witness :
    fieldIdFor testScene 7 = some 0 ∧
    absoluteFieldTransformationsNamed 2 testScene 7 genG =
      absoluteFieldTransformations 2 testScene 0 genG ∧
    absoluteFieldTransformationsNamedInto 2 testScene 7 [genA] 0 1 genG =
      absoluteFieldTransformationsInto 2 testScene 0 [genA] 0 1 genG := by
  have h : fieldIdFor testScene 7 = some 0 := by decide
  exact ⟨h, (C7_named_field_delegates 2 7 0 genG h).1,
    (C7_named_field_delegates 2 7 0 genG h).2 [genA] 0 1⟩

theorem C8_witness :
    validCall flatScene 0 2 = true ∧
    flatScene.localTransform 0 = 1 ∧
    (absoluteFieldTransformationsDefaultGlobal 2 flatScene 0 =
        absoluteFieldTransformations 2 flatScene 0 1 ∧
      ∃ out, absoluteFieldTransformationsDefaultGlobal 2 flatScene 0 =
          some out ∧
        ∀ i : Nat, out[i]? = ((fieldEntries flatScene 0)[i]?).map
          flatScene.localTransform) := by
  have hv : validCall flatScene 0 2 = true := by decide
  have hr : lookupParent flatScene.parentRel 0 = some none := by decide
  have hrL : flatScene.localTransform 0 = 1 := by decide
  have hch : ∀ o ∈ fieldEntries flatScene 0,
      lookupParent flatScene.parentRel o = some (some 0) := by decide
  exact ⟨hv, hrL, C8_single_level_identity_global hv hr hrL hch⟩

theorem C10_witness :
    absoluteFieldTransformationsInto 2 testScene 0
      [⟨9, 9, 9, 9⟩, ⟨9, 9, 9, 9⟩, ⟨9, 9, 9, 9⟩, ⟨9, 9, 9, 9⟩,
        ⟨9, 9, 9, 9⟩, ⟨9, 9, 9, 9⟩] 1 4 genG =
      some [⟨9, 9, 9, 9⟩, ⟨4, 3, 1, 1⟩, ⟨1, 3, 0, 1⟩, ⟨11, 7, 3, 2⟩,
        ⟨4, 3, 1, 1⟩, ⟨9, 9, 9, 9⟩] ∧
    ([⟨9, 9, 9, 9⟩, ⟨4, 3, 1, 1⟩, ⟨1, 3, 0, 1⟩, ⟨11, 7, 3, 2⟩,
        ⟨4, 3, 1, 1⟩, ⟨9, 9, 9, 9⟩] : List M2).length =
      ([⟨9, 9, 9, 9⟩, ⟨9, 9, 9, 9⟩, ⟨9, 9, 9, 9⟩, ⟨9, 9, 9, 9⟩,
        ⟨9, 9, 9, 9⟩, ⟨9, 9, 9, 9⟩] : List M2).length ∧
    ∀ i : Nat, i < 1 ∨ 1 + 4 ≤ i →
      ([⟨9, 9, 9, 9⟩, ⟨4, 3, 1, 1⟩, ⟨1, 3, 0, 1⟩, ⟨11, 7, 3, 2⟩,
        ⟨4, 3, 1, 1⟩, ⟨9, 9, 9, 9⟩] : List M2)[i]? =
      ([⟨9, 9, 9, 9⟩, ⟨9, 9, 9, 9⟩, ⟨9, 9, 9, 9⟩, ⟨9, 9, 9, 9⟩,
        ⟨9, 9, 9, 9⟩, ⟨9, 9, 9, 9⟩] : List M2)[i]? := by
  have hres : absoluteFieldTransformationsInto 2 testScene 0
      [⟨9, 9, 9, 9⟩, ⟨9, 9, 9, 9⟩, ⟨9, 9, 9, 9⟩, ⟨9, 9, 9, 9⟩,
        ⟨9, 9, 9, 9⟩, ⟨9, 9, 9, 9⟩] 1 4 genG =
      some [⟨9, 9, 9, 9⟩, ⟨4, 3, 1, 1⟩, ⟨1, 3, 0, 1⟩, ⟨11, 7, 3, 2⟩,
        ⟨4, 3, 1, 1⟩, ⟨9, 9, 9, 9⟩] := by decide
  exact ⟨hres, C10_into_preserves_outside_buffer genG hres⟩

end MagnumSceneTools
